import Mathlib

/-!
Verification development for the repack-apk repository.

The repository repacks an APK stored in object storage: it adds a `cpid`
entry, rewrites `META-INF/MANIFEST.MF`, regenerates the `.SF` signature
file, signs it into a PKCS#7 `.RSA` block, and writes the new archive
back to object storage.

The development shallowly embeds the relevant Go functions:
Go byte strings become `List Char`, Go slices of bytes become `List Nat`,
fallible code returns `Except`/`Option`, and external collaborators
(the SHA-1 hash, RSA signing, the certificate issued by the x509 library,
wall-clock time) are explicit parameters.

The file is organised as definitions first, then the theorems.
-/

namespace Repack

/-! ## Go string primitives

`goStartsWith`, `goIndexNat`, `goIndex` and `goContains` embed
`strings.HasPrefix`, `strings.Index` (first occurrence, -1 when absent)
and `strings.Contains` over byte strings modelled as `List Char`.
-/

def goStartsWith : List Char → List Char → Bool
  | _, [] => true
  | [], _ :: _ => false
  | c :: s, p :: ps => c == p && goStartsWith s ps

def goIndexNat : List Char → List Char → Option Nat
  | s, pat =>
    if goStartsWith s pat then some 0
    else
      match s with
      | [] => none
      | _ :: t => (goIndexNat t pat).map (fun n => n + 1)

def goIndex (s pat : List Char) : Int :=
  match goIndexNat s pat with
  | some n => n
  | none => -1

def goContains (s pat : List Char) : Bool :=
  (goIndexNat s pat).isSome

/-! ## Manifest rewriting (jar.go, changeManifest lines 30-58)

`changeManifestMF` embeds the MANIFEST.MF rewriting portion of
`changeManifest`: it looks up the `Name: cpid\r\n` line with
`strings.Index`; on `cpidIndex > 0` it splices the bytes before the name
line, the name line, a fresh `SHA1-Digest:` line and the bytes after the
old digest line; otherwise it appends a fresh entry.  The digest argument
stands for `sha1Sum(g.CPIDContent)`, computed by the external crypto
library.
-/

def crlf : List Char := String.toList "\r\n"

def cpidNameLine : List Char := String.toList "Name: cpid\r\n"

def sha1DigestLine (d : List Char) : List Char :=
  String.toList "SHA1-Digest: " ++ d ++ crlf

def changeManifestMF (manifest digest : List Char) : Except (List Char) (List Char) :=
  let cpidIndex := goIndex manifest cpidNameLine
  if 0 < cpidIndex then
    -- cpid file already exists
    let i := cpidIndex.toNat
    let beforePart := manifest.take i
    let rest := manifest.drop (i + cpidNameLine.length)
    let hashLineEnd := goIndex rest crlf
    if hashLineEnd < 0 then
      Except.error (manifest.drop i)
    else
      Except.ok (beforePart ++ cpidNameLine ++ sha1DigestLine digest
        ++ rest.drop (hashLineEnd.toNat + 2))
  else
    -- add cpid entry
    Except.ok (manifest ++ cpidNameLine ++ sha1DigestLine digest ++ crlf)

/-! ## Retry with exponential backoff (src/unnamed/part_001)

`GoError` models a Go error as seen by `StoreWithRetry.retry`: either an
`oss.ServiceError` carrying a status code, or an opaque error with only a
message.  `transient503` embeds the two-branch transient check
(`se.StatusCode == 503`, else `strings.Contains(err.Error(), "503")`).

`retryLoop` embeds the `retry` loop together with `backoff`:
`newBackoff` starts with `delay = 50ms, i = 0, max = 8`; `next` returns 0
once `i` reaches `max` and otherwise increments `i`, doubles the delay and
returns the doubled delay.  The loop is phrased over the number of
remaining retries `remaining = max - i`, which `next` decrements; the
`delay == 0` early return coincides with `remaining = 0` because the delay
sequence 50·2^k is never 0.  The trace records the error returned, the
number of calls to `f`, and every sleep duration in milliseconds.
-/

structure GoError where
  svcStatus : Option Int
  msg : List Char
deriving DecidableEq

def msg503 : List Char := String.toList "503"

def transient503 (e : GoError) : Bool :=
  match e.svcStatus with
  | some code => code == 503 || goContains e.msg msg503
  | none => goContains e.msg msg503

structure RetryTrace where
  result : Option GoError
  attempts : Nat
  sleeps : List Nat
deriving DecidableEq

def retryLoop (f : Nat → Option GoError) : Nat → Nat → Nat → RetryTrace
  | delay, remaining, k =>
    match f k with
    | none => ⟨none, k + 1, []⟩
    | some err =>
      if transient503 err then
        match remaining with
        | 0 => ⟨some err, k + 1, []⟩
        | r + 1 =>
          let d := delay * 2
          let t := retryLoop f d r (k + 1)
          ⟨t.result, t.attempts, d :: t.sleeps⟩
      else ⟨some err, k + 1, []⟩

def backoffInitialDelay : Nat := 50

def backoffMaxRetries : Nat := 8

def retryModel (f : Nat → Option GoError) : RetryTrace :=
  retryLoop f backoffInitialDelay backoffMaxRetries 0

/-! ## Signature file generation (jar.go, changeManifest lines 60-102)

The `.SF` writer splits the rewritten manifest on `\r\n`
(`strings.Split`, embedded as `splitCRLF`), then walks the lines: each
line starting with `Name: ` opens an entry; a physical line of length at
least `LineWidth = 70` is joined with a following continuation line
beginning with a space (both for the name line and for the digest line);
the per-entry digest is the hash of the joined name line, joined digest
line and a blank line; the name line is written folded at column 70 when
longer than 70.  `sfEntries` embeds the loop including its unguarded
`entries[i]` accesses (`none` models the Go index-out-of-range panic) and
the for-statement's own `i++`, which after each processed entry skips one
further line unexamined (the entry's blank separator line in well-formed
manifests).  The hash function (`sha1Sum`, base64 of SHA-1) lives in Go's
crypto library and is a parameter.
-/

def lineWidth : Nat := 70

def nameKey : List Char := String.toList "Name: "

def spaceKey : List Char := String.toList " "

def sfDigestKey : List Char := String.toList "SHA1-Digest: "

/-- Output block for one entry: the (joined) name line, folded at column 70
when longer than 70 with a continuation line led by a single space, then
the `SHA1-Digest:` line with the computed digest, then a blank line. -/
def sfEntryOut (nameLine md : List Char) : List Char :=
  (if lineWidth < nameLine.length then
    nameLine.take lineWidth ++ crlf ++ spaceKey ++ nameLine.drop 70 ++ crlf
  else nameLine ++ crlf)
  ++ sfDigestKey ++ md ++ crlf ++ crlf

/-- Message hashed for one entry: joined name line + joined digest line +
blank line, all `\r\n`-terminated. -/
def sfMsg (nameLine hashLine : List Char) : List Char :=
  nameLine ++ crlf ++ hashLine ++ crlf ++ crlf

def sfEmit (hash : List Char → List Char) (nameLine hashLine : List Char)
    (acc : Option (List Char)) : Option (List Char) :=
  acc.map (fun out => sfEntryOut nameLine (hash (sfMsg nameLine hashLine)) ++ out)

def sfEntries (hash : List Char → List Char) : List (List Char) → Option (List Char)
  | [] => some []
  | e :: rest =>
    if goStartsWith e nameKey then
      -- nameLine := entries[i]; join a continuation line when len >= 70.
      -- After the body the enclosing for-statement's i++ runs, so one more
      -- line (the blank separator in well-formed manifests) is skipped
      -- unexamined before the next iteration; each emit leaf below models
      -- that by dropping the head of what remains.
      if lineWidth ≤ e.length then
        match rest with
        | [] => none
        | nxt :: rest2 =>
          if goStartsWith nxt spaceKey then
            -- nameLine joined; hashLine := next entry
            match rest2 with
            | [] => none
            | h :: rest3 =>
              if lineWidth ≤ h.length then
                match rest3 with
                | [] => none
                | nxt2 :: rest4 =>
                  if goStartsWith nxt2 spaceKey then
                    match rest4 with
                    | [] => sfEmit hash (e ++ nxt.drop 1) (h ++ nxt2.drop 1) (some [])
                    | _ :: rest5 =>
                      sfEmit hash (e ++ nxt.drop 1) (h ++ nxt2.drop 1)
                        (sfEntries hash rest5)
                  else
                    -- nxt2 examined but unconsumed: it is the line i++ skips
                    sfEmit hash (e ++ nxt.drop 1) h (sfEntries hash rest4)
              else
                match rest3 with
                | [] => sfEmit hash (e ++ nxt.drop 1) h (some [])
                | _ :: rest4 => sfEmit hash (e ++ nxt.drop 1) h (sfEntries hash rest4)
          else
            -- no continuation: nameLine := e, hashLine := nxt
            if lineWidth ≤ nxt.length then
              match rest2 with
              | [] => none
              | nxt2 :: rest3 =>
                if goStartsWith nxt2 spaceKey then
                  match rest3 with
                  | [] => sfEmit hash e (nxt ++ nxt2.drop 1) (some [])
                  | _ :: rest4 => sfEmit hash e (nxt ++ nxt2.drop 1) (sfEntries hash rest4)
                else
                  sfEmit hash e nxt (sfEntries hash rest3)
            else
              match rest2 with
              | [] => sfEmit hash e nxt (some [])
              | _ :: rest3 => sfEmit hash e nxt (sfEntries hash rest3)
      else
        match rest with
        | [] => none
        | h :: rest2 =>
          if lineWidth ≤ h.length then
            match rest2 with
            | [] => none
            | nxt2 :: rest3 =>
              if goStartsWith nxt2 spaceKey then
                match rest3 with
                | [] => sfEmit hash e (h ++ nxt2.drop 1) (some [])
                | _ :: rest4 => sfEmit hash e (h ++ nxt2.drop 1) (sfEntries hash rest4)
              else
                sfEmit hash e h (sfEntries hash rest3)
          else
            match rest2 with
            | [] => sfEmit hash e h (some [])
            | _ :: rest3 => sfEmit hash e h (sfEntries hash rest3)
    else sfEntries hash rest

/-- Embedding of `strings.Split(manifest, "\r\n")`: leftmost-first split on
the two-byte separator. -/
def splitCRLF : List Char → List (List Char)
  | [] => [[]]
  | [c] => [[c]]
  | c :: d :: t =>
    if c = '\r' ∧ d = '\n' then [] :: splitCRLF t
    else
      match splitCRLF (d :: t) with
      | [] => [[c]]
      | l :: ls => (c :: l) :: ls

/-- Header block of the `.SF` file: `Signature-Version`, the digest of the
whole manifest bytes, and a blank line. -/
def sfHeader (hash : List Char → List Char) (manifest : List Char) : List Char :=
  String.toList "Signature-Version: 1.0\r\n"
  ++ String.toList "SHA1-Digest-Manifest: " ++ hash manifest ++ crlf ++ crlf

def buildSF (hash : List Char → List Char) (manifest : List Char) : Option (List Char) :=
  (sfEntries hash (splitCRLF manifest)).map (fun body => sfHeader hash manifest ++ body)

/-- Combined output of `changeManifest`: the MANIFEST.MF bytes and the `.SF`
bytes generated from those same manifest bytes. -/
def changeManifestOutputs (hash : List Char → List Char) (manifest digest : List Char) :
    Except (List Char) (List Char × Option (List Char)) :=
  match changeManifestMF manifest digest with
  | Except.error e => Except.error e
  | Except.ok mf => Except.ok (mf, buildSF hash mf)

/-! ### Structured manifests

To quantify over well-formed manifests, `renderLines`/`renderEntries`
render a main-attribute section (arbitrary `\r\n`-terminated lines that
are not `Name: ` lines) followed by two-line entries each closed by a
blank line.  `crlfFree` states that a logical line contains no `\r\n`.
`sfBlocks` is the expected `.SF` body: for every entry, its name line and
the hash of exactly that entry's two-line-plus-blank block. -/

def crlfFree : List Char → Bool
  | [] => true
  | [_] => true
  | c :: d :: t => if c = '\r' ∧ d = '\n' then false else crlfFree (d :: t)

def renderLines : List (List Char) → List Char
  | [] => []
  | l :: ls => l ++ crlf ++ renderLines ls

def renderEntries : List (List Char × List Char) → List Char
  | [] => []
  | p :: ps => p.1 ++ crlf ++ p.2 ++ crlf ++ crlf ++ renderEntries ps

def renderManifest (main : List (List Char)) (es : List (List Char × List Char)) :
    List Char :=
  renderLines main ++ renderEntries es

def entryLines : List (List Char × List Char) → List (List Char)
  | [] => []
  | p :: ps => p.1 :: p.2 :: [] :: entryLines ps

def sfBlocks (hash : List Char → List Char) : List (List Char × List Char) → List Char
  | [] => []
  | p :: ps => p.1 ++ crlf ++ sfDigestKey ++ hash (sfMsg p.1 p.2) ++ crlf ++ crlf
      ++ sfBlocks hash ps

/-! ## Multipart append writer: Flush part planning

Modelled from the spec: the threshold/chunked `Flush` of the multipart
append writer is absent from src — src/oss.go holds an earlier version
whose `Flush` always copies the whole prefix as a single part and which
never uses the `Store`/`StoreWithRetry` layer of src/unnamed/part_001
(and has an unused `log` import, so it is not even the compiling state of
the package).  The definitions below model, from the spec's words, the
part planning of the missing `Flush`:

* an `appendOffset` at or below the minimum-part-size threshold takes the
  single non-multipart put path: the unmodified prefix is read into
  memory and concatenated with the buffered tail;
* otherwise the prefix `[0, appendOffset)` is cut into full chunks of the
  configured copy-chunk size (`floor(appendOffset / chunkSize)` of them,
  raised to 1 if zero); a nonzero remainder of at least the minimum part
  size becomes its own additional copy part, while a nonzero remainder
  smaller than the minimum part size is folded into the enlarged final
  copy part instead of becoming its own too-small part (the spec's worked
  example — 200MB source, 50MB chunks, remainder 0, 4 copy parts — fixes
  the remainder-0 reading);
* the buffered tail is uploaded as one further part with index
  `numParts + 1`.
-/

structure PartDescriptor where
  index : Nat
  start : Nat
  size : Nat
deriving DecidableEq

/-- Modelled from the spec: number of server-side copy parts for a
multipart `Flush` of a prefix of `offset` bytes with copy-chunk size `c`
and minimum part size `minPart`. -/
def numCopyParts (offset c minPart : Nat) : Nat :=
  let full := offset / c
  let r := offset % c
  if full = 0 then 1
  else if r = 0 then full
  else if r < minPart then full
  else full + 1

/-- Modelled from the spec: the copy-part descriptors, 1-based contiguous
indices, fixed-size chunks with the final part absorbing the rest of the
prefix. -/
def copyPartDescriptors (offset c minPart : Nat) : List PartDescriptor :=
  let n := numCopyParts offset c minPart
  (List.range n).map (fun i =>
    ⟨i + 1, i * c, if i + 1 = n then offset - i * c else c⟩)

inductive FlushPlan where
  | singlePut (content : List Nat)
  | multipart (copies : List PartDescriptor) (tailIndex : Nat) (tailData : List Nat)
deriving DecidableEq

def FlushPlan.isMultipart : FlushPlan → Bool
  | FlushPlan.singlePut _ => false
  | FlushPlan.multipart _ _ _ => true

/-- Modelled from the spec: the `Flush` decision.  `source` is the
unmodified prefix of the source object (`appendOffset` bytes), `tailData`
the buffered bytes written after it. -/
def flushPlan (source tailData : List Nat) (c minPart : Nat) : FlushPlan :=
  if source.length ≤ minPart then
    FlushPlan.singlePut (source ++ tailData)
  else
    let copies := copyPartDescriptors source.length c minPart
    FlushPlan.multipart copies (copies.length + 1) tailData

/-- Chunk count as claim C2 words it literally: `floor(appendOffset / C)`,
raised to 1 if zero, decremented by one when the remainder would be
smaller than the minimum part size.  Kept separate from `numCopyParts` to
compare the claim's literal formula against the spec-modelled planner. -/
def numCopyPartsClaimed (offset c minPart : Nat) : Nat :=
  let n := offset / c
  let n1 := if n = 0 then 1 else n
  if offset % c < minPart then n1 - 1 else n1

/-! ## PKCS#7 signing (src/unnamed/part_000)

Structures mirror the ASN.1 data types of part_000; opaque carriers
(RDN sequences, public-key bits, signature bits) are nests of `List`;
time instants are `Int` with an abstract `addYears` (Go's
`time.Time.AddDate(y, 0, 0)`), and the certificate issued by
`x509.CreateCertificate` — external library code — is an input
(`issued`), as are `sha1` and RSA-PKCS#1-v1.5 signing.  `signPKCS7`
models lines 62-123 of part_000: patch the decoded certificate's two
validity timestamps, hash and sign the `.SF` content, and assemble the
`pkcs7SignedData` value that is handed to `asn1.Marshal`.
-/

def oidPKCS7 : List Nat := [1, 2, 840, 113549, 1, 7]

def oidData : List Nat := [1, 2, 840, 113549, 1, 7, 1]

def oidSignedData : List Nat := [1, 2, 840, 113549, 1, 7, 2]

def oidSHA1 : List Nat := [1, 3, 14, 3, 2, 26]

def oidRSAEncryption : List Nat := [1, 2, 840, 113549, 1, 1, 1]

/-- Algorithm identifier; `paramsTag` models `asn1.RawValue{Tag: 5}`
(an ASN.1 NULL parameter). -/
structure AlgorithmIdentifier where
  algorithm : List Nat
  paramsTag : Nat
deriving DecidableEq

structure Validity where
  notBefore : Int
  notAfter : Int
deriving DecidableEq

structure TBSCertificate where
  version : Nat
  serialNumber : Int
  signature : AlgorithmIdentifier
  issuer : List Char
  validity : Validity
  subject : List Char
  subjectPKI : List Nat
deriving DecidableEq

structure Certificate where
  tbs : TBSCertificate
  signatureAlgorithm : AlgorithmIdentifier
  signatureValue : List Nat
deriving DecidableEq

structure ContentInfo where
  contentType : List Nat
deriving DecidableEq

structure IssuerAndSerialNumber where
  issuer : List Char
  serialNumber : Int
deriving DecidableEq

structure SignerInfo where
  version : Nat
  issuerAndSerialNumber : IssuerAndSerialNumber
  digestAlgorithm : AlgorithmIdentifier
  digestEncryptionAlgorithm : AlgorithmIdentifier
  encryptedDigest : List Nat
deriving DecidableEq

structure SignedData where
  version : Nat
  digestAlgorithms : List AlgorithmIdentifier
  contentInfo : ContentInfo
  certificates : Certificate
  signerInfos : List SignerInfo
deriving DecidableEq

structure Pkcs7SignedData where
  contentType : List Nat
  content : SignedData
deriving DecidableEq

def certValidYears : Int := 30

def pkcs7SerialNumber : Int := 0x5462c4dd

/-- The fixed subject/issuer common name of the carrier certificate
(`pkix.Name{CommonName: "youzu"}`, its RDN sequence modelled by the
common-name string). -/
def pkcs7CommonName : List Char := String.toList "youzu"

/-- Embedding of `signPKCS7`.  `sha1` and `rsaSignPKCS1v15` stand for Go's
`crypto/sha1` and `rsa.SignPKCS1v15`; `addYears y t` for
`t.AddDate(y, 0, 0).UTC()`; `nowB`/`nowA` for the two `time.Now()` calls;
`issued` for the certificate created by `x509.CreateCertificate` from the
template and decoded back by `asn1.Unmarshal`; `msg` for the `.SF`
content. -/
def signPKCS7 (sha1 : List Nat → List Nat) (rsaSignPKCS1v15 : List Nat → List Nat)
    (addYears : Int → Int → Int) (nowB nowA : Int)
    (issued : Certificate) (msg : List Nat) : Pkcs7SignedData :=
  let c : Certificate :=
    { issued with tbs :=
      { issued.tbs with validity :=
        ⟨addYears (-1) nowB, addYears certValidYears nowA⟩ } }
  let hashed := sha1 msg
  let signed := rsaSignPKCS1v15 hashed
  { contentType := oidSignedData
  , content :=
    { version := 1
    , digestAlgorithms := [⟨oidSHA1, 5⟩]
    , contentInfo := ⟨oidData⟩
    , certificates := c
    , signerInfos :=
      [{ version := 1
       , issuerAndSerialNumber := ⟨pkcs7CommonName, pkcs7SerialNumber⟩
       , digestAlgorithm := ⟨oidSHA1, 5⟩
       , digestEncryptionAlgorithm := ⟨oidRSAEncryption, 5⟩
       , encryptedDigest := signed }] } }

/-! ## Ranged reads (src/oss.go, Reader.ReadAt lines 55-73)

`readAt` embeds `Reader.ReadAt`: the ranged GET for
`[off, off+len(buf)-1]` inclusive, the `copy(buf, all)` into the caller's
buffer, and the short-read check `copy(buf, all) != len(buf)` that fails
with the expected and actual byte counts.  The GET response is a
parameter (`resp`); `goCopy` embeds Go's `copy` builtin. -/

def goCopy (dst src : List Nat) : List Nat × Nat :=
  (src.take dst.length ++ dst.drop src.length, min dst.length src.length)

inductive ReadAtOutcome where
  | getFailed (e : List Char)
  | shortRead (expect got : Nat)
  | ok (filled : List Nat) (n : Nat)
deriving DecidableEq

def readAt (resp : Except (List Char) (List Nat)) (buf : List Nat) (off : Int) :
    (Int × Int) × ReadAtOutcome :=
  let range := (off, off + (buf.length : Int) - 1)
  match resp with
  | Except.error e => (range, ReadAtOutcome.getFailed e)
  | Except.ok all =>
    let r := goCopy buf all
    if r.2 ≠ buf.length then (range, ReadAtOutcome.shortRead buf.length all.length)
    else (range, ReadAtOutcome.ok r.1 buf.length)

/-! ## Theorems -/

theorem goIndexNat_toNat (s pat : List Char) (n : Nat)
    (h : goIndexNat s pat = some n) : goIndex s pat = (n : Int) := by
  unfold goIndex
  rw [h]

/-- Claim C4 (amended): for every manifest that contains the cpid entry at a
positive byte offset, `changeManifest` replaces only that entry's digest
line in place: the output is byte-identical to the input before the name
line and after the old digest line, the name line is kept, and no
duplicate entry is added. -/
theorem changeManifest_inplace (pre old post digest : List Char)
    (hpos : 0 < pre.length)
    (hidx : goIndexNat (pre ++ cpidNameLine ++ old ++ crlf ++ post) cpidNameLine
      = some pre.length)
    (hline : goIndexNat (old ++ crlf ++ post) crlf = some old.length) :
    changeManifestMF (pre ++ cpidNameLine ++ old ++ crlf ++ post) digest
      = Except.ok (pre ++ cpidNameLine ++ sha1DigestLine digest ++ post) := by
  have hpos' : (0 : Int) < (pre.length : Int) := by exact_mod_cast hpos
  simp only [List.append_assoc] at hidx hline ⊢
  have hidx' := goIndexNat_toNat _ _ _ hidx
  have hline' := goIndexNat_toNat _ _ _ hline
  have htake : (pre ++ (cpidNameLine ++ (old ++ (crlf ++ post)))).take
      pre.length = pre := List.take_left pre _
  have hdrop : (pre ++ (cpidNameLine ++ (old ++ (crlf ++ post)))).drop
      (pre.length + cpidNameLine.length) = old ++ (crlf ++ post) := by
    rw [← List.length_append pre cpidNameLine, ← List.append_assoc, List.drop_left]
  have hdrop2 : (old ++ (crlf ++ post)).drop (old.length + 2) = post := by
    have hc : crlf.length = 2 := rfl
    rw [← hc, ← List.length_append old crlf, ← List.append_assoc, List.drop_left]
  have hnot : ¬ ((old.length : Int) < 0) := by omega
  simp only [changeManifestMF, hidx', if_pos hpos', Int.toNat_natCast, htake, hdrop,
    hline', if_neg hnot, hdrop2, List.append_assoc]

/-- Witness for C4's amended theorem at a concrete manifest: the entry sits
after a `Manifest-Version` preamble and only its digest line changes. -/
theorem changeManifest_inplace_witness :
    changeManifestMF
        (String.toList "Manifest-Version: 1.0\r\nName: cpid\r\nSHA1-Digest: OLD\r\n\r\n")
        (String.toList "NEW")
      = Except.ok
        (String.toList "Manifest-Version: 1.0\r\nName: cpid\r\nSHA1-Digest: NEW\r\n\r\n") := by
  have h := changeManifest_inplace
    (String.toList "Manifest-Version: 1.0\r\n")
    (String.toList "SHA1-Digest: OLD")
    (String.toList "\r\n")
    (String.toList "NEW")
    (by decide) (by decide) (by decide)
  exact h

/-- Counterexample to claim C4 as stated: a manifest whose very first bytes
are the cpid name line does contain the target entry, yet `changeManifest`
appends a duplicate entry instead of replacing the digest line in place. -/
theorem changeManifest_offset_zero_duplicates :
    goIndexNat (String.toList "Name: cpid\r\nSHA1-Digest: OLD\r\n\r\n") cpidNameLine
        = some 0
    ∧ changeManifestMF (String.toList "Name: cpid\r\nSHA1-Digest: OLD\r\n\r\n")
        (String.toList "NEW")
      = Except.ok (String.toList
          "Name: cpid\r\nSHA1-Digest: OLD\r\n\r\nName: cpid\r\nSHA1-Digest: NEW\r\n\r\n")
    ∧ changeManifestMF (String.toList "Name: cpid\r\nSHA1-Digest: OLD\r\n\r\n")
        (String.toList "NEW")
      ≠ Except.ok (String.toList "Name: cpid\r\nSHA1-Digest: NEW\r\n\r\n") := by
  have h2 : changeManifestMF (String.toList "Name: cpid\r\nSHA1-Digest: OLD\r\n\r\n")
      (String.toList "NEW")
      = Except.ok (String.toList
          "Name: cpid\r\nSHA1-Digest: OLD\r\n\r\nName: cpid\r\nSHA1-Digest: NEW\r\n\r\n") := by
    rfl
  refine ⟨by decide, h2, ?_⟩
  rw [h2]
  intro h
  exact absurd (Except.ok.inj h) (by decide)

/-! ### Splitting and SF-generation lemmas -/

theorem splitCRLF_append_crlf : ∀ (l rest : List Char), crlfFree l = true →
    splitCRLF (l ++ (crlf ++ rest)) = l :: splitCRLF rest := by
  intro l
  induction l with
  | nil =>
    intro rest _
    show splitCRLF ('\r' :: '\n' :: rest) = [] :: splitCRLF rest
    simp [splitCRLF]
  | cons a l ih =>
    intro rest hl
    cases l with
    | nil =>
      show splitCRLF (a :: '\r' :: '\n' :: rest) = [a] :: splitCRLF rest
      have hd : ¬ (a = '\r' ∧ '\r' = '\n') := by
        intro hab
        exact absurd hab.2 (by decide)
      simp only [splitCRLF, if_neg hd]
      simp [splitCRLF]
    | cons b t =>
      have h1 : ¬ (a = '\r' ∧ b = '\n') := by
        intro hab
        simp only [crlfFree, if_pos hab] at hl
        exact Bool.noConfusion hl
      have h2 : crlfFree (b :: t) = true := by
        simp only [crlfFree, if_neg h1] at hl
        exact hl
      have hIH : splitCRLF (b :: (t ++ (crlf ++ rest))) = (b :: t) :: splitCRLF rest :=
        ih rest h2
      show splitCRLF (a :: b :: (t ++ (crlf ++ rest))) = (a :: b :: t) :: splitCRLF rest
      simp only [splitCRLF, if_neg h1, hIH]

theorem splitCRLF_renderLines (main : List (List Char)) (rest : List Char)
    (hm : ∀ l ∈ main, crlfFree l = true) :
    splitCRLF (renderLines main ++ rest) = main ++ splitCRLF rest := by
  induction main with
  | nil => simp [renderLines]
  | cons l ms ih =>
    have hl := hm l (List.mem_cons_self l ms)
    have hms : ∀ x ∈ ms, crlfFree x = true := fun x hx => hm x (List.mem_cons_of_mem l hx)
    simp only [renderLines, List.append_assoc]
    rw [splitCRLF_append_crlf l _ hl, ih hms]
    rfl

theorem splitCRLF_renderEntries (es : List (List Char × List Char))
    (he : ∀ p ∈ es, crlfFree p.1 = true ∧ crlfFree p.2 = true) :
    splitCRLF (renderEntries es) = entryLines es ++ [[]] := by
  induction es with
  | nil => simp [renderEntries, entryLines, splitCRLF]
  | cons p ps ih =>
    have hp := he p (List.mem_cons_self p ps)
    have hps : ∀ x ∈ ps, crlfFree x.1 = true ∧ crlfFree x.2 = true :=
      fun x hx => he x (List.mem_cons_of_mem p hx)
    simp only [renderEntries, List.append_assoc]
    rw [splitCRLF_append_crlf p.1 _ hp.1, splitCRLF_append_crlf p.2 _ hp.2]
    have hnil : splitCRLF (crlf ++ renderEntries ps)
        = [] :: splitCRLF (renderEntries ps) := by
      have := splitCRLF_append_crlf [] (renderEntries ps) rfl
      simpa using this
    rw [hnil, ih hps]
    rfl

theorem sfEntries_skip (hash : List Char → List Char) (e : List Char)
    (rest : List (List Char)) (he : goStartsWith e nameKey = false) :
    sfEntries hash (e :: rest) = sfEntries hash rest := by
  rw [sfEntries.eq_def]
  simp [he]

theorem sfEntries_skipAll (hash : List Char → List Char) (ls rest : List (List Char))
    (h : ∀ l ∈ ls, goStartsWith l nameKey = false) :
    sfEntries hash (ls ++ rest) = sfEntries hash rest := by
  induction ls with
  | nil => rfl
  | cons l ms ih =>
    rw [List.cons_append, sfEntries_skip hash l _ (h l (List.mem_cons_self l ms))]
    exact ih (fun x hx => h x (List.mem_cons_of_mem l hx))

theorem sfEntries_simple (hash : List Char → List Char) (n h x : List Char)
    (rest : List (List Char)) (hn : goStartsWith n nameKey = true)
    (hln : n.length < lineWidth) (hlh : h.length < lineWidth) :
    sfEntries hash (n :: h :: x :: rest) = sfEmit hash n h (sfEntries hash rest) := by
  have h1 : ¬ (lineWidth ≤ n.length) := by omega
  have h2 : ¬ (lineWidth ≤ h.length) := by omega
  rw [sfEntries.eq_def]
  simp [hn, h1, h2]

theorem sfEntryOut_short (nameLine md : List Char) (h : nameLine.length ≤ lineWidth) :
    sfEntryOut nameLine md = nameLine ++ crlf ++ sfDigestKey ++ md ++ crlf ++ crlf := by
  have h1 : ¬ (lineWidth < nameLine.length) := by omega
  simp [sfEntryOut, h1]

theorem sfEntries_entryLines (hash : List Char → List Char)
    (es : List (List Char × List Char)) (rest : List (List Char)) (out : List Char)
    (he : ∀ p ∈ es, goStartsWith p.1 nameKey = true
      ∧ p.1.length < lineWidth ∧ p.2.length < lineWidth)
    (hrest : sfEntries hash rest = some out) :
    sfEntries hash (entryLines es ++ rest) = some (sfBlocks hash es ++ out) := by
  induction es with
  | nil => simpa [entryLines, sfBlocks] using hrest
  | cons p ps ih =>
    have hp := he p (List.mem_cons_self p ps)
    have hps : ∀ x ∈ ps, goStartsWith x.1 nameKey = true
        ∧ x.1.length < lineWidth ∧ x.2.length < lineWidth :=
      fun x hx => he x (List.mem_cons_of_mem p hx)
    calc sfEntries hash (entryLines (p :: ps) ++ rest)
        = sfEntries hash (p.1 :: p.2 :: [] :: (entryLines ps ++ rest)) := rfl
      _ = sfEmit hash p.1 p.2 (sfEntries hash (entryLines ps ++ rest)) :=
          sfEntries_simple hash p.1 p.2 [] _ hp.1 hp.2.1 hp.2.2
      _ = sfEmit hash p.1 p.2 (some (sfBlocks hash ps ++ out)) := by rw [ih hps]
      _ = some (sfBlocks hash (p :: ps) ++ out) := by
          simp only [sfEmit, Option.map_some, sfBlocks]
          rw [sfEntryOut_short p.1 _ (Nat.le_of_lt hp.2.1)]
          simp [List.append_assoc]

/-- Claim C5: for every generated `.SF`/`.MF` pair (the manifest shaped as a
main section followed by two-line entries, the common case produced by
`changeManifest`), the manifest digest declared in the `.SF` header is the
hash of the exact bytes written to MANIFEST.MF, and each per-entry digest
in `.SF` is the hash of exactly that entry's `Name:` line plus digest line
plus trailing blank line taken from the manifest.  Stated for an arbitrary
hash function because `sha1Sum` is external crypto-library code. -/
theorem sf_digest_agreement (hash : List Char → List Char) (m d : List Char)
    (main : List (List Char)) (es : List (List Char × List Char))
    (hmf : changeManifestMF m d = Except.ok (renderManifest main es))
    (hmain : ∀ l ∈ main, crlfFree l = true ∧ goStartsWith l nameKey = false)
    (hes : ∀ p ∈ es, crlfFree p.1 = true ∧ crlfFree p.2 = true
      ∧ goStartsWith p.1 nameKey = true ∧ p.1.length < lineWidth
      ∧ p.2.length < lineWidth) :
    changeManifestOutputs hash m d
      = Except.ok (renderManifest main es,
          some (sfHeader hash (renderManifest main es) ++ sfBlocks hash es)) := by
  have hsplit : splitCRLF (renderManifest main es) = main ++ (entryLines es ++ [[]]) := by
    unfold renderManifest
    rw [splitCRLF_renderLines main _ (fun l hl => (hmain l hl).1),
      splitCRLF_renderEntries es (fun p hp => ⟨(hes p hp).1, (hes p hp).2.1⟩)]
  have hblank : sfEntries hash [[]] = some [] := by
    rw [sfEntries_skip hash [] [] rfl]
    rfl
  have hentries : sfEntries hash (splitCRLF (renderManifest main es))
      = some (sfBlocks hash es ++ []) := by
    rw [hsplit, sfEntries_skipAll hash main _ (fun l hl => (hmain l hl).2),
      sfEntries_entryLines hash es [[]] [] (fun p hp => (hes p hp).2.2) hblank]
  have hbuild : buildSF hash (renderManifest main es)
      = some (sfHeader hash (renderManifest main es) ++ sfBlocks hash es) := by
    unfold buildSF
    rw [hentries]
    simp
  simp only [changeManifestOutputs, hmf, hbuild]

/-- Witness for C5 at a concrete manifest without a cpid entry: the entry is
appended, the `.SF` header digest is the hash of the full rewritten
manifest, and the per-entry digest is the hash of the entry block. -/
theorem sf_digest_agreement_witness :
    changeManifestOutputs (fun _ => String.toList "FAKEHASH")
        (String.toList "Manifest-Version: 1.0\r\n\r\n") (String.toList "DD")
      = Except.ok
          (renderManifest [String.toList "Manifest-Version: 1.0", []]
            [(String.toList "Name: cpid", String.toList "SHA1-Digest: DD")],
          some (sfHeader (fun _ => String.toList "FAKEHASH")
              (renderManifest [String.toList "Manifest-Version: 1.0", []]
                [(String.toList "Name: cpid", String.toList "SHA1-Digest: DD")])
            ++ sfBlocks (fun _ => String.toList "FAKEHASH")
              [(String.toList "Name: cpid", String.toList "SHA1-Digest: DD")])) := by
  exact sf_digest_agreement (fun _ => String.toList "FAKEHASH")
    (String.toList "Manifest-Version: 1.0\r\n\r\n") (String.toList "DD")
    [String.toList "Manifest-Version: 1.0", []]
    [(String.toList "Name: cpid", String.toList "SHA1-Digest: DD")]
    (by rfl) (by decide) (by decide)

/-- Claim C6 (amended): a manifest name line of 70 columns or more is joined
with its continuation line, and when the joined name line exceeds 70
columns it is written to the `.SF` folded at column 70 with a continuation
line beginning with a single leading space, the per-entry digest being
computed over the unfolded text; a manifest digest line of 70 columns or
more is likewise joined with its continuation line before hashing, but the
`.SF`'s own per-entry digest line is written as a single unfolded line.
The line `s` after each processed entry — the blank separator line in
well-formed manifests — is skipped unexamined by the loop's
post-increment. -/
theorem sf_folding_behavior :
    (∀ (hash : List Char → List Char) (n1 n2 d s : List Char)
      (rest : List (List Char)) (out : List Char),
      goStartsWith n1 nameKey = true →
      lineWidth ≤ n1.length →
      lineWidth < (n1 ++ n2).length →
      d.length < lineWidth →
      sfEntries hash rest = some out →
      sfEntries hash (n1 :: (' ' :: n2) :: d :: s :: rest)
        = some ((n1 ++ n2).take lineWidth ++ crlf ++ spaceKey ++ (n1 ++ n2).drop 70
            ++ crlf ++ sfDigestKey ++ hash (sfMsg (n1 ++ n2) d) ++ crlf ++ crlf ++ out))
    ∧ (∀ (hash : List Char → List Char) (n d1 d2 s : List Char)
      (rest : List (List Char)) (out : List Char),
      goStartsWith n nameKey = true →
      n.length < lineWidth →
      lineWidth ≤ d1.length →
      sfEntries hash rest = some out →
      sfEntries hash (n :: d1 :: (' ' :: d2) :: s :: rest)
        = some (n ++ crlf ++ sfDigestKey ++ hash (sfMsg n (d1 ++ d2))
            ++ crlf ++ crlf ++ out)) := by
  constructor
  · intro hash n1 n2 d s rest out hn h70 hjoin hd hrest
    have hd' : ¬ (lineWidth ≤ d.length) := by omega
    rw [sfEntries.eq_def]
    simp only [hn, h70, if_pos, if_true]
    have hsp : goStartsWith (' ' :: n2) spaceKey = true := by
      simp [goStartsWith, spaceKey]
    simp only [hsp, if_true, List.drop_one, List.tail_cons, hd', if_false, ite_false,
      ite_true, if_neg hd']
    rw [hrest]
    simp only [sfEmit, Option.map_some, sfEntryOut, if_pos hjoin]
    simp [List.append_assoc]
  · intro hash n d1 d2 s rest out hn hshort h70 hrest
    have hn' : ¬ (lineWidth ≤ n.length) := by omega
    rw [sfEntries.eq_def]
    simp only [hn, if_true, if_neg hn', h70, if_pos]
    have hsp : goStartsWith (' ' :: d2) spaceKey = true := by
      simp [goStartsWith, spaceKey]
    simp only [hsp, if_true, List.drop_one, List.tail_cons, ite_true]
    rw [hrest]
    simp only [sfEmit, Option.map_some]
    rw [sfEntryOut_short n _ (Nat.le_of_lt hshort)]
    simp [List.append_assoc]

/-- Witness for C6's amended theorem: a 70-column name line with a
continuation is folded on output with a single leading space and hashed
unfolded; a 70-column digest line with a continuation is hashed unfolded
while the `.SF` digest line is written unfolded. -/
theorem sf_folding_behavior_witness :
    sfEntries (fun _ => String.toList "FAKEHASH")
        (String.toList "Name: xxxxxxxxxxxxxxxxxxxxxxxxxxxxxxxxxxxxxxxxxxxxxxxxxxxxxxxxxxxxxxxx"
          :: (' ' :: String.toList "yy") :: String.toList "SHA1-Digest: Q" :: [] :: [])
      = some ((String.toList "Name: xxxxxxxxxxxxxxxxxxxxxxxxxxxxxxxxxxxxxxxxxxxxxxxxxxxxxxxxxxxxxxxx"
            ++ String.toList "yy").take lineWidth ++ crlf ++ spaceKey
          ++ (String.toList "Name: xxxxxxxxxxxxxxxxxxxxxxxxxxxxxxxxxxxxxxxxxxxxxxxxxxxxxxxxxxxxxxxx"
            ++ String.toList "yy").drop 70 ++ crlf ++ sfDigestKey
          ++ (fun (_ : List Char) => String.toList "FAKEHASH")
              (sfMsg (String.toList "Name: xxxxxxxxxxxxxxxxxxxxxxxxxxxxxxxxxxxxxxxxxxxxxxxxxxxxxxxxxxxxxxxx"
                ++ String.toList "yy") (String.toList "SHA1-Digest: Q"))
          ++ crlf ++ crlf ++ [])
    ∧ sfEntries (fun _ => String.toList "FAKEHASH")
        (String.toList "Name: f"
          :: String.toList "SHA1-Digest: AAAAAAAAAAAAAAAAAAAAAAAAAAAAAAAAAAAAAAAAAAAAAAAAAAAAAAAAA"
          :: (' ' :: String.toList "BB") :: [] :: [])
      = some (String.toList "Name: f" ++ crlf ++ sfDigestKey
          ++ (fun (_ : List Char) => String.toList "FAKEHASH")
              (sfMsg (String.toList "Name: f")
                (String.toList "SHA1-Digest: AAAAAAAAAAAAAAAAAAAAAAAAAAAAAAAAAAAAAAAAAAAAAAAAAAAAAAAAA"
                  ++ String.toList "BB"))
          ++ crlf ++ crlf ++ []) := by
  constructor
  · exact sf_folding_behavior.1 (fun _ => String.toList "FAKEHASH")
      (String.toList "Name: xxxxxxxxxxxxxxxxxxxxxxxxxxxxxxxxxxxxxxxxxxxxxxxxxxxxxxxxxxxxxxxx")
      (String.toList "yy") (String.toList "SHA1-Digest: Q") [] [] []
      (by decide) (by decide) (by decide) (by decide) rfl
  · exact sf_folding_behavior.2 (fun _ => String.toList "FAKEHASH")
      (String.toList "Name: f")
      (String.toList "SHA1-Digest: AAAAAAAAAAAAAAAAAAAAAAAAAAAAAAAAAAAAAAAAAAAAAAAAAAAAAAAAA")
      (String.toList "BB") [] [] []
      (by decide) (by decide) (by decide) rfl

/-- Counterexample to claim C6 as stated: an entry whose manifest digest
line exceeds 70 columns (70-column first line plus a continuation) yields a
`.SF` output containing no folded line at all — no written line begins with
a space — because the `.SF` writes its own fresh `SHA1-Digest:` line and
only name lines are ever folded. -/
theorem sf_digest_line_not_folded :
    sfEntries (fun _ => String.toList "AAAAAAAAAAAAAAAAAAAAAAAAAAA=")
        (String.toList "Name: f"
          :: String.toList "SHA1-Digest: AAAAAAAAAAAAAAAAAAAAAAAAAAAAAAAAAAAAAAAAAAAAAAAAAAAAAAAAA"
          :: (' ' :: String.toList "BB") :: [] :: [])
      = some (String.toList
          "Name: f\r\nSHA1-Digest: AAAAAAAAAAAAAAAAAAAAAAAAAAA=\r\n\r\n")
    ∧ lineWidth <
        (String.toList "SHA1-Digest: AAAAAAAAAAAAAAAAAAAAAAAAAAAAAAAAAAAAAAAAAAAAAAAAAAAAAAAAA"
          ++ String.toList "BB").length
    ∧ (splitCRLF (String.toList
          "Name: f\r\nSHA1-Digest: AAAAAAAAAAAAAAAAAAAAAAAAAAA=\r\n\r\n")).all
        (fun l => !(goStartsWith l spaceKey)) = true := by
  refine ⟨by decide, by decide, by decide⟩

/-- Claim C3 (amended): a store call that always fails with a transient
(503-class) error is attempted exactly 9 times (1 initial + 8 retries),
sleeping between attempts for strictly doubling delays starting at 100ms
(the 50ms initial backoff delay is doubled before the first sleep), after
which the original error is returned unmodified; a non-transient error is
returned immediately after a single attempt, with no sleep. -/
theorem retry_backoff_behavior :
    (∀ (e : GoError) (f : Nat → Option GoError), transient503 e = true →
      (∀ k, f k = some e) →
      retryModel f = ⟨some e, 9, [100, 200, 400, 800, 1600, 3200, 6400, 12800]⟩)
    ∧ (∀ (e : GoError) (f : Nat → Option GoError), transient503 e = false →
      f 0 = some e →
      retryModel f = ⟨some e, 1, []⟩) := by
  constructor
  · intro e f ht hf
    simp [retryModel, retryLoop, hf, ht, backoffInitialDelay, backoffMaxRetries]
  · intro e f ht hf
    simp [retryModel, retryLoop, hf, ht]

/-- Witness for C3's amended theorem: a structured 503 service error is
retried to exhaustion with the doubled delays, and an opaque error without
"503" in its message fails fast. -/
theorem retry_backoff_behavior_witness :
    retryModel (fun _ => some ⟨some 503, []⟩)
      = ⟨some ⟨some 503, []⟩, 9, [100, 200, 400, 800, 1600, 3200, 6400, 12800]⟩
    ∧ retryModel (fun _ => some ⟨none, String.toList "boom"⟩)
      = ⟨some ⟨none, String.toList "boom"⟩, 1, []⟩ := by
  constructor
  · exact retry_backoff_behavior.1 ⟨some 503, []⟩ _ (by decide) (fun _ => rfl)
  · exact retry_backoff_behavior.2 ⟨none, String.toList "boom"⟩ _ (by decide) rfl

/-! ### Flush part-planning lemmas (spec-modelled) -/

theorem numCopyParts_cases (o c m : Nat) :
    numCopyParts o c m =
      if o / c = 0 then 1
      else if o % c = 0 then o / c
      else if o % c < m then o / c
      else o / c + 1 := rfl

theorem numCopyParts_pos (o c m : Nat) : 0 < numCopyParts o c m := by
  rw [numCopyParts_cases]
  generalize o / c = full
  generalize o % c = r
  split
  · omega
  · split
    · omega
    · split <;> omega

theorem numCopyParts_pred_mul_le (o c m : Nat) :
    (numCopyParts o c m - 1) * c ≤ o := by
  have hnle : numCopyParts o c m - 1 ≤ o / c := by
    rw [numCopyParts_cases]
    generalize o / c = full
    generalize o % c = r
    split
    · omega
    · split
      · omega
      · split <;> omega
  calc (numCopyParts o c m - 1) * c
      ≤ (o / c) * c := Nat.mul_le_mul_right c hnle
    _ ≤ o := Nat.div_mul_le_self o c

theorem sum_const_map_range (k c : Nat) :
    ((List.range k).map (fun _ => c)).sum = k * c := by
  induction k with
  | zero => simp
  | succ k ih =>
    rw [List.range_succ, List.map_append, List.sum_append, ih]
    simp [Nat.succ_mul]

theorem sum_chunk_sizes (o c n : Nat) (hn : 0 < n) (hle : (n - 1) * c ≤ o) :
    ((List.range n).map (fun i => if i + 1 = n then o - i * c else c)).sum = o := by
  obtain ⟨k, rfl⟩ : ∃ k, n = k + 1 := ⟨n - 1, by omega⟩
  rw [List.range_succ, List.map_append, List.sum_append]
  have h1 : (List.range k).map (fun i => if i + 1 = k + 1 then o - i * c else c)
      = (List.range k).map (fun _ => c) := by
    apply List.map_congr_left
    intro i hi
    have hik : i < k := List.mem_range.mp hi
    have hne : ¬ (i + 1 = k + 1) := by omega
    simp [hne]
  rw [h1, sum_const_map_range]
  simp only [List.map_cons, List.map_nil, List.sum_cons, List.sum_nil]
  have hkk : k + 1 = k + 1 := rfl
  simp only [hkk, if_true, if_pos]
  have hle' : k * c ≤ o := by simpa using hle
  omega

/-- Claim C1 (spec-modelled): an `appendOffset` at or below the
minimum-part-size threshold makes `Flush` write the destination with a
single non-multipart put whose payload is the unmodified prefix
concatenated with the buffered tail, while an `appendOffset` one byte
above the threshold takes the multipart path. -/
theorem flush_threshold (source tailData : List Nat) (c minPart : Nat) :
    (source.length ≤ minPart →
      flushPlan source tailData c minPart = FlushPlan.singlePut (source ++ tailData))
    ∧ (source.length = minPart + 1 →
      (flushPlan source tailData c minPart).isMultipart = true) := by
  constructor
  · intro h
    simp [flushPlan, h]
  · intro h
    have h' : ¬ (source.length ≤ minPart) := by omega
    simp [flushPlan, h', FlushPlan.isMultipart]

/-- Witness for C1: with threshold 2, a 2-byte prefix is written as one
single put of prefix-plus-tail, and a 3-byte prefix goes multipart. -/
theorem flush_threshold_witness :
    flushPlan [5, 6] [9] 7 2 = FlushPlan.singlePut [5, 6, 9]
    ∧ (flushPlan [5, 6, 7] [9] 7 2).isMultipart = true := by
  exact ⟨(flush_threshold [5, 6] [9] 7 2).1 (by decide),
    (flush_threshold [5, 6, 7] [9] 7 2).2 (by decide)⟩

/-- Claim C2 (amended, spec-modelled): on the multipart path `Flush` plans
the copy parts of the prefix `[0, appendOffset)` plus the buffered tail as
one further part with index `numParts + 1`; the copy parts carry
contiguous 1-based indices and their sizes sum to `appendOffset`; the
count is `floor(appendOffset / C)` full chunks (raised to 1 when zero),
with a nonzero remainder smaller than the minimum part size folded into
the enlarged final copy part and a remainder of at least the minimum part
size forming its own additional part; in particular a 200MB source with
50MB chunks yields 4 copy parts plus 1 tail part, 5 parts in total. -/
theorem flush_partitioning :
    (∀ (source tailData : List Nat) (c minPart : Nat), minPart < source.length →
      flushPlan source tailData c minPart
        = FlushPlan.multipart (copyPartDescriptors source.length c minPart)
            (numCopyParts source.length c minPart + 1) tailData
      ∧ (copyPartDescriptors source.length c minPart).length
          = numCopyParts source.length c minPart
      ∧ (copyPartDescriptors source.length c minPart).map PartDescriptor.index
          = (List.range (numCopyParts source.length c minPart)).map (fun i => i + 1)
      ∧ ((copyPartDescriptors source.length c minPart).map PartDescriptor.size).sum
          = source.length)
    ∧ (∀ (o c m : Nat), 0 < c →
        (o % c = 0 → 0 < o / c → numCopyParts o c m = o / c)
      ∧ (0 < o % c → o % c < m → m < o →
          numCopyParts o c m = o / c
          ∧ o - (numCopyParts o c m - 1) * c = c + o % c)
      ∧ (m ≤ o % c → 0 < o % c → numCopyParts o c m = o / c + 1))
    ∧ (numCopyParts 200000000 50000000 100000 = 4
      ∧ (copyPartDescriptors 200000000 50000000 100000).map PartDescriptor.size
          = [50000000, 50000000, 50000000, 50000000]
      ∧ numCopyParts 200000000 50000000 100000 + 1 = 5) := by
  refine ⟨?_, ?_, ?_⟩
  · intro source tailData c minPart hlt
    have h' : ¬ (source.length ≤ minPart) := by omega
    refine ⟨by simp [flushPlan, h', copyPartDescriptors], ?_, ?_, ?_⟩
    · simp [copyPartDescriptors]
    · simp [copyPartDescriptors, List.map_map]
    · have hpos := numCopyParts_pos source.length c minPart
      have hle := numCopyParts_pred_mul_le source.length c minPart
      have hmap : (copyPartDescriptors source.length c minPart).map PartDescriptor.size
          = (List.range (numCopyParts source.length c minPart)).map
              (fun i => if i + 1 = numCopyParts source.length c minPart
                then source.length - i * c else c) := by
        simp [copyPartDescriptors, List.map_map]
      rw [hmap, sum_chunk_sizes _ _ _ hpos hle]
  · intro o c m hc
    have hdm : c * (o / c) + o % c = o := Nat.div_add_mod o c
    refine ⟨?_, ?_, ?_⟩
    · intro hr hfull
      rw [numCopyParts_cases]
      have h0 : ¬ (o / c = 0) := by omega
      simp [h0, hr]
    · intro hr hrm hmo
      have hfull : ¬ (o / c = 0) := by
        intro h0
        have : o < c := (Nat.div_eq_zero_iff hc).mp h0
        have : o % c = o := Nat.mod_eq_of_lt this
        omega
      have hn : numCopyParts o c m = o / c := by
        rw [numCopyParts_cases]
        have hr0 : ¬ (o % c = 0) := by omega
        simp [hfull, hr0, hrm]
      refine ⟨hn, ?_⟩
      rw [hn]
      obtain ⟨g, hg⟩ : ∃ g, o / c = g + 1 := ⟨o / c - 1, by omega⟩
      rw [hg]
      have hmul : c * (g + 1) = c * g + c := by ring
      have hmul2 : (g + 1 - 1) * c = c * g := by
        simp [Nat.mul_comm]
      rw [hmul2]
      rw [hg, hmul] at hdm
      omega
    · intro hmr hr0
      rw [numCopyParts_cases]
      have hr0' : ¬ (o % c = 0) := by omega
      have hrm' : ¬ (o % c < m) := by omega
      by_cases hfull : o / c = 0
      · have hoc : o < c := (Nat.div_eq_zero_iff hc).mp hfull
        have hmo : o % c = o := Nat.mod_eq_of_lt hoc
        simp [hfull]
      · simp [hfull, hr0', hrm']
  · refine ⟨by decide, by decide, by decide⟩

/-- Witness for C2's amended theorem at concrete sizes: a 3-byte prefix
with 2-byte chunks and minimum part size 1 yields 2 copy parts and tail
index 3; the remainder rules are exercised at 7/3 with thresholds 2
(fold: 2 copy parts, enlarged final part 4 bytes) and 1 (remainder is its
own part: 3 copy parts). -/
theorem flush_partitioning_witness :
    flushPlan [5, 6, 7] [9] 2 1
      = FlushPlan.multipart (copyPartDescriptors 3 2 1) (numCopyParts 3 2 1 + 1) [9]
    ∧ numCopyParts 7 3 2 = 7 / 3
    ∧ 7 - (numCopyParts 7 3 2 - 1) * 3 = 3 + 7 % 3
    ∧ numCopyParts 7 3 1 = 7 / 3 + 1 := by
  refine ⟨(flush_partitioning.1 [5, 6, 7] [9] 2 1 (by decide)).1, ?_, ?_, ?_⟩
  · exact ((flush_partitioning.2.1 7 3 2 (by decide)).2.1
      (by decide) (by decide) (by decide)).1
  · exact ((flush_partitioning.2.1 7 3 2 (by decide)).2.1
      (by decide) (by decide) (by decide)).2
  · exact (flush_partitioning.2.1 7 3 1 (by decide)).2.2 (by decide) (by decide)

/-- Counterexample to claim C2 as stated: at the claim's own worked example
(200MB prefix, 50MB chunks, remainder 0) the claim's literal count formula
— floor, raised to 1 if zero, decremented by one when the remainder would
be smaller than the minimum part size — yields 3 copy parts, while the
claim itself (and the spec's worked example) requires 4. -/
theorem numCopyPartsClaimed_contradicts_example :
    numCopyPartsClaimed 200000000 50000000 100000 = 3
    ∧ numCopyParts 200000000 50000000 100000 = 4
    ∧ numCopyPartsClaimed 200000000 50000000 100000
      ≠ numCopyParts 200000000 50000000 100000 := by
  refine ⟨by decide, by decide, by decide⟩

/-- Claim C7: for every `.SF` content and RSA key, the value assembled by
`signPKCS7` (and handed to `asn1.Marshal`, Go's DER encoder) is a PKCS#7
SignedData with the signed-data content-type OID, exactly one digest
algorithm (SHA-1), an empty content-info carrying the data OID (detached
payload), the carrier certificate, and one signer-info whose issuer and
serial match the carrier certificate, whose digest-encryption algorithm is
RSA, and whose encrypted digest is the RSA-PKCS#1-v1.5 signature over the
SHA-1 hash of the `.SF` content.  RSA signing and SHA-1 are the external
crypto-library parameters `rsaSign` and `sha1`. -/
theorem signPKCS7_structure (sha1 rsaSign : List Nat → List Nat)
    (addYears : Int → Int → Int) (nowB nowA : Int) (issued : Certificate)
    (msg : List Nat)
    (hiss : issued.tbs.issuer = pkcs7CommonName)
    (hser : issued.tbs.serialNumber = pkcs7SerialNumber) :
    (signPKCS7 sha1 rsaSign addYears nowB nowA issued msg).contentType = oidSignedData
    ∧ (signPKCS7 sha1 rsaSign addYears nowB nowA issued msg).content.version = 1
    ∧ (signPKCS7 sha1 rsaSign addYears nowB nowA issued msg).content.digestAlgorithms
        = [⟨oidSHA1, 5⟩]
    ∧ (signPKCS7 sha1 rsaSign addYears nowB nowA issued msg).content.contentInfo
        = ⟨oidData⟩
    ∧ (∃ si : SignerInfo,
        (signPKCS7 sha1 rsaSign addYears nowB nowA issued msg).content.signerInfos = [si]
        ∧ si.version = 1
        ∧ si.issuerAndSerialNumber.issuer
            = (signPKCS7 sha1 rsaSign addYears nowB nowA issued
                msg).content.certificates.tbs.issuer
        ∧ si.issuerAndSerialNumber.serialNumber
            = (signPKCS7 sha1 rsaSign addYears nowB nowA issued
                msg).content.certificates.tbs.serialNumber
        ∧ si.digestAlgorithm.algorithm = oidSHA1
        ∧ si.digestEncryptionAlgorithm.algorithm = oidRSAEncryption
        ∧ si.encryptedDigest = rsaSign (sha1 msg))
    ∧ oidSignedData = [1, 2, 840, 113549, 1, 7, 2]
    ∧ oidSHA1 = [1, 3, 14, 3, 2, 26]
    ∧ oidRSAEncryption = [1, 2, 840, 113549, 1, 1, 1]
    ∧ oidData = [1, 2, 840, 113549, 1, 7, 1]
    ∧ oidPKCS7 = [1, 2, 840, 113549, 1, 7] := by
  refine ⟨rfl, rfl, rfl, rfl, ⟨_, rfl, rfl, ?_, ?_, rfl, rfl, rfl⟩,
    rfl, rfl, rfl, rfl, rfl⟩
  · exact hiss.symm
  · exact hser.symm

/-- Witness for C7 at a concrete issued certificate and concrete crypto
parameters. -/
theorem signPKCS7_structure_witness :
    (signPKCS7 (fun _ => [3]) (fun _ => [4]) (fun y t => t + y) 100 100
        ⟨⟨2, pkcs7SerialNumber, ⟨oidSHA1, 5⟩, pkcs7CommonName, ⟨0, 0⟩,
          pkcs7CommonName, [1]⟩, ⟨oidSHA1, 5⟩, [2]⟩ [7]).contentType = oidSignedData
    ∧ (signPKCS7 (fun _ => [3]) (fun _ => [4]) (fun y t => t + y) 100 100
        ⟨⟨2, pkcs7SerialNumber, ⟨oidSHA1, 5⟩, pkcs7CommonName, ⟨0, 0⟩,
          pkcs7CommonName, [1]⟩, ⟨oidSHA1, 5⟩, [2]⟩ [7]).content.contentInfo
        = ⟨oidData⟩ := by
  refine ⟨(signPKCS7_structure (fun _ => [3]) (fun _ => [4]) (fun y t => t + y)
    100 100 _ [7] rfl rfl).1, ?_⟩
  exact (signPKCS7_structure (fun _ => [3]) (fun _ => [4]) (fun y t => t + y)
    100 100 ⟨⟨2, pkcs7SerialNumber, ⟨oidSHA1, 5⟩, pkcs7CommonName, ⟨0, 0⟩,
      pkcs7CommonName, [1]⟩, ⟨oidSHA1, 5⟩, [2]⟩ [7] rfl rfl).2.2.2.1

/-- Claim C8: the validity window of the certificate embedded in the
signature block is patched after issuance to begin one year before the
signing time and end `CertValidYears = 30` years after it; the patch is
applied to the decoded structural model of the issued certificate and the
patched structure is what is re-serialized into the SignedData value. -/
theorem signPKCS7_validity_window (sha1 rsaSign : List Nat → List Nat)
    (addYears : Int → Int → Int) (nowB nowA : Int) (issued : Certificate)
    (msg : List Nat) :
    certValidYears = 30
    ∧ (signPKCS7 sha1 rsaSign addYears nowB nowA issued
        msg).content.certificates.tbs.validity.notBefore = addYears (-1) nowB
    ∧ (signPKCS7 sha1 rsaSign addYears nowB nowA issued
        msg).content.certificates.tbs.validity.notAfter
        = addYears certValidYears nowA := ⟨rfl, rfl, rfl⟩

/-- Claim C10: patching the validity window changes only the two validity
timestamps of the decoded certificate: every other field — the version,
serial number, inner and outer signature algorithms, issuer, subject,
public-key info, and in particular the SignatureValue — is re-serialized
exactly as issued, so the embedded self-signature is still the one the
issuance path computed over the original TBSCertificate. -/
theorem signPKCS7_cert_frame (sha1 rsaSign : List Nat → List Nat)
    (addYears : Int → Int → Int) (nowB nowA : Int) (issued : Certificate)
    (msg : List Nat) :
    (signPKCS7 sha1 rsaSign addYears nowB nowA issued
        msg).content.certificates.signatureValue = issued.signatureValue
    ∧ (signPKCS7 sha1 rsaSign addYears nowB nowA issued
        msg).content.certificates.signatureAlgorithm = issued.signatureAlgorithm
    ∧ (signPKCS7 sha1 rsaSign addYears nowB nowA issued
        msg).content.certificates.tbs.version = issued.tbs.version
    ∧ (signPKCS7 sha1 rsaSign addYears nowB nowA issued
        msg).content.certificates.tbs.serialNumber = issued.tbs.serialNumber
    ∧ (signPKCS7 sha1 rsaSign addYears nowB nowA issued
        msg).content.certificates.tbs.signature = issued.tbs.signature
    ∧ (signPKCS7 sha1 rsaSign addYears nowB nowA issued
        msg).content.certificates.tbs.issuer = issued.tbs.issuer
    ∧ (signPKCS7 sha1 rsaSign addYears nowB nowA issued
        msg).content.certificates.tbs.subject = issued.tbs.subject
    ∧ (signPKCS7 sha1 rsaSign addYears nowB nowA issued
        msg).content.certificates.tbs.subjectPKI = issued.tbs.subjectPKI
    ∧ (signPKCS7 sha1 rsaSign addYears nowB nowA issued
        msg).content.certificates.tbs.validity
        = ⟨addYears (-1) nowB, addYears certValidYears nowA⟩ :=
  ⟨rfl, rfl, rfl, rfl, rfl, rfl, rfl, rfl, rfl⟩

/-- Claim C9: `ReadAt` issues a ranged GET for the inclusive byte range
`[offset, offset+len(buffer)-1]`; when the response carries at least
`len(buffer)` bytes it returns `(len(buffer), nil)` with the buffer filled
by the first `len(buffer)` response bytes, and when the response is short
it returns an error carrying the expected and actual byte counts instead
of succeeding with a partial fill. -/
theorem readAt_behavior :
    (∀ (resp : Except (List Char) (List Nat)) (buf : List Nat) (off : Int),
      (readAt resp buf off).1 = (off, off + (buf.length : Int) - 1))
    ∧ (∀ (all buf : List Nat) (off : Int), buf.length ≤ all.length →
      (readAt (Except.ok all) buf off).2
        = ReadAtOutcome.ok (all.take buf.length) buf.length)
    ∧ (∀ (all buf : List Nat) (off : Int), all.length < buf.length →
      (readAt (Except.ok all) buf off).2
        = ReadAtOutcome.shortRead buf.length all.length) := by
  refine ⟨?_, ?_, ?_⟩
  · intro resp buf off
    cases resp with
    | error e => rfl
    | ok all =>
      simp only [readAt]
      split <;> rfl
  · intro all buf off h
    have hmin : min buf.length all.length = buf.length := Nat.min_eq_left h
    have hdrop : buf.drop all.length = [] := List.drop_eq_nil_of_le h
    simp [readAt, goCopy, hmin, hdrop]
  · intro all buf off h
    have hmin : min buf.length all.length = all.length := Nat.min_eq_right (le_of_lt h)
    have hne : all.length ≠ buf.length := by omega
    simp [readAt, goCopy, hmin, hne]

/-- Witness for C9: a 2-byte buffer read from a 3-byte response fills the
buffer with the first 2 bytes over range `[5, 6]`, and from a 1-byte
response fails with expected 2, got 1. -/
theorem readAt_behavior_witness :
    (readAt (Except.ok [1, 2, 3]) [0, 0] 5).1 = (5, 6)
    ∧ (readAt (Except.ok [1, 2, 3]) [0, 0] 5).2 = ReadAtOutcome.ok [1, 2] 2
    ∧ (readAt (Except.ok [7]) [0, 0] 5).2 = ReadAtOutcome.shortRead 2 1 := by
  refine ⟨readAt_behavior.1 (Except.ok [1, 2, 3]) [0, 0] 5, ?_, ?_⟩
  · exact readAt_behavior.2.1 [1, 2, 3] [0, 0] 5 (by decide)
  · exact readAt_behavior.2.2 [7] [0, 0] 5 (by decide)

/-- Counterexample to claim C3 as stated: the sleep sequence under constant
transient failure starts at 100ms, not 50ms — the backoff doubles its 50ms
initial delay before the first sleep. -/
theorem retry_first_sleep_is_100ms :
    (retryModel (fun _ => some ⟨some 503, []⟩)).sleeps
      = [100, 200, 400, 800, 1600, 3200, 6400, 12800]
    ∧ (retryModel (fun _ => some ⟨some 503, []⟩)).sleeps
      ≠ [50, 100, 200, 400, 800, 1600, 3200, 6400] := by
  exact ⟨rfl, by decide⟩

end Repack
